import Mathlib

/-!
Verification of the mesh-atlas alpha-estimation tool
(`samseg/cli/gems_compute_atlas_probs.py`).

The script converts hard-labeled segmentation volumes into fixed-point
class-probability volumes (Label Encoder), positions mesh nodes from a
reference geometry plus per-subject deformation and crop offset
(Deformation Applier), fits per-node alphas by EM (`mesh.fit_alphas`),
rasterizes them (`mesh.rasterize`), and averages converged alphas across
subjects per resolution level (Atlas Aggregator).

Conventions of the embedding:
* a voxel index is a triple of naturals, a labeled volume is a function
  from voxel indices to the integer label stored there
  (`nib.load(...).get_fdata()` holds integer label values);
* `segmentation_map` is a uint16 array, so every value stored into it is
  reduced modulo 2^16 (two-complement truncation of the store, which is
  what the reference platform does for out-of-range values);
* real-valued quantities (node positions, alphas) are modelled over ℚ.
-/

/-- A voxel index (i, j, k) of the 3-D volume. -/
abbrev Vox : Type := ℕ × ℕ × ℕ

/-- An integer-labeled volume: the label stored at each voxel. -/
abbrev Volume : Type := Vox → ℕ

/-- The fixed-point full-scale constant: the literal 65535 used on lines
180-188 of the source to represent probability 1.0 in 16-bit fixed point. -/
def full_scale : ℕ := 65535

/-- Source line 183, one loop iteration:
`segmentation_map[:, :, :, label_number + 1] = (segmentation_image == label) * 65535`.
Channel `k` (for 1 ≤ k ≤ L) holds 65535 where the voxel label equals
`labels[k-1]` and 0 elsewhere; a channel index with no corresponding entry of
`labels` keeps its `np.zeros` initial value 0. -/
def fgChannel (labels : List ℕ) (img : Volume) (v : Vox) (k : ℕ) : ℕ :=
  match labels.get? (k - 1) with
  | some lab => if img v = lab then full_scale else 0
  | none => 0

/-- Source line 185, the summand: `np.sum(segmentation_map[:, :, :, 1:], axis=3)`,
the per-voxel sum of the foreground channels 1..L.  (NumPy accumulates a
uint16 sum in a 64-bit unsigned integer, so for L·65535 < 2^64 the sum itself
does not wrap.) -/
def fgSum (labels : List ℕ) (img : Volume) (v : Vox) : ℕ :=
  ∑ k in Finset.range labels.length, fgChannel labels img v (k + 1)

/-- Source line 185: `segmentation_map[:, :, :, 0] = 65535 - np.sum(...)`.
The subtraction happens in 64-bit unsigned arithmetic and the result is then
stored into the uint16 array; since 2^16 divides 2^64 the net effect is the
integer difference reduced modulo 2^16. -/
def bgChannel (labels : List ℕ) (img : Volume) (v : Vox) : ℕ :=
  (((full_scale : ℤ) - (fgSum labels img v : ℤ)) % 65536).toNat

/-- Multi-structure Label Encoder (source lines 178-185): channel 0 is the
background fill, channel k ≥ 1 the indicator channel of `labels[k-1]`. -/
def encodeMulti (labels : List ℕ) (img : Volume) (v : Vox) (c : ℕ) : ℕ :=
  if c = 0 then bgChannel labels img v else fgChannel labels img v c

/-- Binary Label Encoder (source lines 186-188):
`segmentation_map[:, :, :, 0] = (1 - segmentation_image) * 65535` and
`segmentation_map[:, :, :, 1] = segmentation_image * 65535`, both stored into
the uint16 array (values reduced modulo 2^16); the two channels beyond index 1
do not exist, modelled as the `np.zeros` fill 0. -/
def encodeBinary (img : Volume) (v : Vox) (c : ℕ) : ℕ :=
  if c = 0 then (((1 - (img v : ℤ)) * (full_scale : ℤ)) % 65536).toNat
  else if c = 1 then (img v * full_scale) % 65536
  else 0

/-- The scenario volume of the spec: voxel (0,0,0) holds label 10,
voxel (0,0,1) holds label 20, every other voxel holds background 0. -/
def scenVol : Volume := fun v =>
  if v = ((0 : ℕ), (0 : ℕ), (0 : ℕ)) then 10
  else if v = ((0 : ℕ), (0 : ℕ), (1 : ℕ)) then 20
  else 0

lemma fgChannel_cons_succ (a : ℕ) (labels : List ℕ) (img : Volume) (v : Vox)
    (k : ℕ) : fgChannel (a :: labels) img v (k + 1 + 1) = fgChannel labels img v (k + 1) := by
  simp [fgChannel]

lemma fgChannel_cons_one (a : ℕ) (labels : List ℕ) (img : Volume) (v : Vox) :
    fgChannel (a :: labels) img v 1 = if img v = a then full_scale else 0 := by
  simp [fgChannel]

lemma fgSum_cons (a : ℕ) (labels : List ℕ) (img : Volume) (v : Vox) :
    fgSum (a :: labels) img v
      = (if img v = a then full_scale else 0) + fgSum labels img v := by
  unfold fgSum
  rw [List.length_cons, Finset.sum_range_succ']
  simp only [zero_add, fgChannel_cons_succ, fgChannel_cons_one]
  omega

/-- The per-voxel sum of the foreground channels is the full-scale constant
times the number of entries of `labels` matching the voxel label. -/
lemma fgSum_eq_count (labels : List ℕ) (img : Volume) (v : Vox) :
    fgSum labels img v = full_scale * labels.count (img v) := by
  induction labels with
  | nil => simp [fgSum]
  | cons a labels ih =>
      rw [fgSum_cons, ih, List.count_cons]
      by_cases h : img v = a
      · simp [h, Nat.mul_succ]
        omega
      · have h' : ¬ (a = img v) := fun hc => h hc.symm
        simp [h, h']

/-- Under the no-overlap condition the background store does not wrap and is
the plain integer difference. -/
lemma bgChannel_of_le (labels : List ℕ) (img : Volume) (v : Vox)
    (h : fgSum labels img v ≤ full_scale) :
    bgChannel labels img v = full_scale - fgSum labels img v := by
  unfold bgChannel full_scale at *
  omega

lemma encodeBinary_sum (img : Volume) (v : Vox) :
    encodeBinary img v 0 + encodeBinary img v 1 = full_scale := by
  simp only [encodeBinary, full_scale]
  norm_num
  omega

/-- A volume whose every voxel is labeled 2 (an integer-labeled volume a
user may legitimately supply in binary mode). -/
def c2vol : Volume := fun _ => 2

/-- A volume whose every voxel is labeled 1 (a binary 0/1 volume). -/
def onesVol : Volume := fun _ => 1

/-- The duplicated labels list used to exhibit label overlap. -/
def dupLabels : List ℕ := [10, 10]

/-- A volume whose every voxel is labeled 10. -/
def tenVol : Volume := fun _ => 10

lemma encodeMulti_succ (labels : List ℕ) (img : Volume) (v : Vox) (k : ℕ) :
    encodeMulti labels img v (k + 1) = fgChannel labels img v (k + 1) := by
  simp [encodeMulti]

lemma sum_encodeMulti_fg (labels : List ℕ) (img : Volume) (v : Vox) :
    (∑ k in Finset.range labels.length, encodeMulti labels img v (k + 1))
      = fgSum labels img v := by
  unfold fgSum
  exact Finset.sum_congr rfl (fun k _ => encodeMulti_succ labels img v k)

lemma fgChannel_eq_getD (labels : List ℕ) (img : Volume) (v : Vox) (k : ℕ)
    (hk : k < labels.length) :
    fgChannel labels img v (k + 1)
      = if img v = labels.getD k 0 then full_scale else 0 := by
  unfold fgChannel
  rw [Nat.add_sub_cancel]
  cases hsome : labels.get? k with
  | none =>
      exact absurd (List.get?_eq_none.mp hsome) (Nat.not_le_of_lt hk)
  | some lab =>
      rw [List.getD_eq_get?, hsome]
      rfl

lemma fgSum_le_of_count (labels : List ℕ) (img : Volume) (v : Vox)
    (h : labels.count (img v) ≤ 1) : fgSum labels img v ≤ full_scale := by
  rw [fgSum_eq_count]
  calc full_scale * labels.count (img v) ≤ full_scale * 1 :=
        Nat.mul_le_mul_left full_scale h
    _ = full_scale := Nat.mul_one full_scale

/-- C1: in multi-structure mode the Label Encoder sets, at every voxel,
channel k (for k in 1..L) to 65535 times the indicator that the voxel label
equals `labels[k-1]`, and channel 0 to 65535 minus the per-voxel sum of
channels 1..L (the subtraction is the exact integer difference whenever the
voxel matches at most one entry of `labels`; overlapping labels are undefined
input per the spec).  In particular, encoding labels [10, 20] on the scenario
volume gives channel 0 equal to 0 at voxels (0,0,0) and (0,0,1), channel 1
equal to 65535 at (0,0,0), channel 2 equal to 65535 at (0,0,1), and channel 0
equal to 65535 at every other voxel. -/
theorem C1_multi_structure_encoding (labels : List ℕ) (img : Volume) (v : Vox)
    (h : labels.count (img v) ≤ 1) :
    (∀ k, k < labels.length →
      encodeMulti labels img v (k + 1)
        = full_scale * (if img v = labels.getD k 0 then 1 else 0)) ∧
    (∑ k in Finset.range labels.length, encodeMulti labels img v (k + 1))
        ≤ full_scale ∧
    encodeMulti labels img v 0
        = full_scale
            - ∑ k in Finset.range labels.length, encodeMulti labels img v (k + 1) ∧
    encodeMulti [10, 20] scenVol (0, 0, 0) 0 = 0 ∧
    encodeMulti [10, 20] scenVol (0, 0, 1) 0 = 0 ∧
    encodeMulti [10, 20] scenVol (0, 0, 0) 1 = full_scale ∧
    encodeMulti [10, 20] scenVol (0, 0, 1) 2 = full_scale ∧
    (∀ w : Vox, w ≠ (0, 0, 0) → w ≠ (0, 0, 1) →
      encodeMulti [10, 20] scenVol w 0 = full_scale) := by
  have hle : fgSum labels img v ≤ full_scale := fgSum_le_of_count labels img v h
  refine ⟨?_, ?_, ?_, by decide, by decide, by decide, by decide, ?_⟩
  · intro k hk
    rw [encodeMulti_succ, fgChannel_eq_getD labels img v k hk]
    by_cases hcase : img v = labels.getD k 0 <;> simp [hcase]
  · rw [sum_encodeMulti_fg]
    exact hle
  · rw [sum_encodeMulti_fg]
    show bgChannel labels img v = full_scale - fgSum labels img v
    exact bgChannel_of_le labels img v hle
  · intro w h1 h2
    have hw : scenVol w = 0 := by
      unfold scenVol
      rw [if_neg h1, if_neg h2]
    show bgChannel [10, 20] scenVol w = full_scale
    have hz : fgSum [10, 20] scenVol w = 0 := by
      rw [fgSum_eq_count, hw]
      decide
    rw [bgChannel_of_le [10, 20] scenVol w (by rw [hz]; exact Nat.zero_le _), hz]
    exact Nat.sub_zero full_scale

/-- Witness for C1 at the scenario input: the voxel (0,0,0) of the scenario
volume matches exactly one entry of [10, 20] and its background channel is 0. -/
theorem C1_multi_structure_encoding_witness :
    ([10, 20] : List ℕ).count (scenVol (0, 0, 0)) ≤ 1 ∧
    encodeMulti [10, 20] scenVol (0, 0, 0) 0 = 0 :=
  ⟨by decide,
   (C1_multi_structure_encoding [10, 20] scenVol (0, 0, 0) (by decide)).2.2.2.1⟩

/-- C2: at every voxel the sum of the encoded channels is exactly 65535 in
integer arithmetic in binary mode (C = 2, every volume) and in
multi-structure mode (C = L + 1) whenever the voxel matches at most one
entry of `labels` (label overlap is undefined input per the spec and wraps,
see the C8 theorem). -/
theorem C2_channel_sum_invariant (labels : List ℕ) (img : Volume) (v : Vox)
    (h : labels.count (img v) ≤ 1) :
    (∑ c in Finset.range 2, encodeBinary img v c) = full_scale ∧
    (∑ c in Finset.range (labels.length + 1), encodeMulti labels img v c)
        = full_scale := by
  constructor
  · rw [Finset.sum_range_succ, Finset.sum_range_one]
    exact encodeBinary_sum img v
  · rw [Finset.sum_range_succ']
    rw [sum_encodeMulti_fg]
    have hle : fgSum labels img v ≤ full_scale := fgSum_le_of_count labels img v h
    have hbg : encodeMulti labels img v 0 = full_scale - fgSum labels img v :=
      bgChannel_of_le labels img v hle
    omega

/-- Witness for C2 at the scenario input. -/
theorem C2_channel_sum_invariant_witness :
    ([10, 20] : List ℕ).count (scenVol (0, 0, 0)) ≤ 1 ∧
    (∑ c in Finset.range 2, encodeBinary scenVol (0, 0, 0) c) = full_scale ∧
    (∑ c in Finset.range 3, encodeMulti [10, 20] scenVol (0, 0, 0) c)
        = full_scale :=
  ⟨by decide, C2_channel_sum_invariant [10, 20] scenVol (0, 0, 0) (by decide)⟩

/-- C3 counterexample: the claim fails on a volume carrying an integer label
other than 0 or 1.  At a voxel labeled 2 the binary encoder stores
2 · 65535 mod 2^16 = 65534 into channel 1, which is not 65535 times any 0/1
indicator value (the code multiplies the raw voxel value, it never compares
against a foreground label). -/
theorem C3_binary_counterexample :
    encodeBinary c2vol (0, 0, 0) 1 = 65534 ∧
    65534 ≠ full_scale * 0 ∧ 65534 ≠ full_scale * 1 := by decide

/-- C3 (amended): in binary mode the code uses the voxel value itself as the
foreground indicator, so for a volume whose voxel labels are all 0 or 1
(foreground label 1) channel 0 is 65535 · (1 − indicator) and channel 1 is
65535 · indicator; on labels outside {0, 1} the stored value is the raw label
times 65535 reduced modulo 2^16 instead. -/
theorem C3_binary_encoding_amended (img : Volume) (v : Vox)
    (h : img v = 0 ∨ img v = 1) :
    encodeBinary img v 0 = full_scale * (1 - (if img v = 1 then 1 else 0)) ∧
    encodeBinary img v 1 = full_scale * (if img v = 1 then 1 else 0) := by
  rcases h with h | h <;> norm_num [encodeBinary, full_scale, h] <;> decide

/-- Witness for the amended C3 on the all-ones (binary) volume. -/
theorem C3_binary_encoding_amended_witness :
    (onesVol (0, 0, 0) = 0 ∨ onesVol (0, 0, 0) = 1) ∧
    encodeBinary onesVol (0, 0, 0) 1
      = full_scale * (if onesVol (0, 0, 0) = 1 then 1 else 0) :=
  ⟨Or.inr rfl, (C3_binary_encoding_amended onesVol (0, 0, 0) (Or.inr rfl)).2⟩

/-- C8: with the duplicated labels list [10, 10], at a voxel labeled 10 the
sum of the foreground channels is 131070, which exceeds 65535; the unguarded
background computation 65535 − 131070 is negative, and the value stored into
the uint16 channel 0 is its wrap modulo 2^16, namely 1, rather than a
rejection of the overlapping input. -/
theorem C8_overlap_background_wraps :
    fgSum dupLabels tenVol (0, 0, 0) = 131070 ∧
    full_scale < fgSum dupLabels tenVol (0, 0, 0) ∧
    encodeMulti dupLabels tenVol (0, 0, 0) 0 = 1 ∧
    ((full_scale : ℤ) - 131070) % 65536 = 1 ∧
    (full_scale : ℤ) - 131070 < 0 := by decide

/-- A 3-D point or displacement vector over ℚ. -/
abbrev Vec3 : Type := ℚ × ℚ × ℚ

/-- Modelled from the spec: the node positions returned by
`ProbabilisticAtlas.getMesh` with an `initialDeformation` argument (source
lines 164-169 call samseg/gems code that is not under src/): the reference
node positions with the per-node displacement field applied additively,
node by node. -/
def getMeshPoints (ref disp : List Vec3) : List Vec3 :=
  List.zipWith (fun p d => p + d) ref disp

/-- Source line 175: `node_positions += [slc.start for slc in cropping]` —
the integer crop offset, one number per axis, is broadcast: the same
3-vector is added to every node position. -/
def applyCropping (pos : List Vec3) (offset : ℤ × ℤ × ℤ) : List Vec3 :=
  pos.map (fun p => p + ((offset.1 : ℚ), (offset.2.1 : ℚ), (offset.2.2 : ℚ)))

/-- Subject-space node positions (source lines 164-175): deformed reference
positions plus the crop offset. -/
def node_positions (ref disp : List Vec3) (offset : ℤ × ℤ × ℤ) : List Vec3 :=
  applyCropping (getMeshPoints ref disp) offset

lemma zipWith_add_getD (l1 l2 : List Vec3) (n : ℕ)
    (h1 : n < l1.length) (h2 : n < l2.length) :
    (List.zipWith (fun p d => p + d) l1 l2).getD n 0
      = l1.getD n 0 + l2.getD n 0 := by
  induction l1 generalizing l2 n with
  | nil => simp at h1
  | cons a l1 ih =>
      cases l2 with
      | nil => simp at h2
      | cons b l2 =>
          cases n with
          | zero => rfl
          | succ n =>
              simp only [List.zipWith_cons_cons, List.getD_cons_succ]
              exact ih l2 n (by simpa using h1) (by simpa using h2)

lemma map_add_getD (l : List Vec3) (c : Vec3) (n : ℕ) (h : n < l.length) :
    (l.map (fun p => p + c)).getD n 0 = l.getD n 0 + c := by
  induction l generalizing n with
  | nil => simp at h
  | cons a l ih =>
      cases n with
      | zero => rfl
      | succ n =>
          simp only [List.map_cons, List.getD_cons_succ]
          exact ih n (by simpa using h)

/-- C4: for every reference geometry, per-node displacement field of matching
length and integer 3-vector crop offset, the subject-space position of each
node is the reference position plus the displacement of that node plus the
crop offset, the same offset being added to every node. -/
theorem C4_deformation_applier (ref disp : List Vec3) (offset : ℤ × ℤ × ℤ)
    (n : ℕ) (hn : n < ref.length) (hlen : disp.length = ref.length) :
    (node_positions ref disp offset).getD n 0
      = ref.getD n 0 + disp.getD n 0
          + ((offset.1 : ℚ), (offset.2.1 : ℚ), (offset.2.2 : ℚ)) := by
  unfold node_positions applyCropping getMeshPoints
  rw [map_add_getD _ _ n (by simp [List.length_zipWith, hlen]; omega),
      zipWith_add_getD ref disp n hn (by omega)]

/-- Witness for C4: one node at (1,2,3), displacement (10,0,0), crop offset
(5,6,7). -/
theorem C4_deformation_applier_witness :
    (0 : ℕ) < ([((1 : ℚ), (2 : ℚ), (3 : ℚ))] : List Vec3).length ∧
    (node_positions [((1 : ℚ), (2 : ℚ), (3 : ℚ))] [((10 : ℚ), (0 : ℚ), (0 : ℚ))]
        ((5 : ℤ), (6 : ℤ), (7 : ℤ))).getD 0 0
      = ((1 : ℚ), (2 : ℚ), (3 : ℚ)) + ((10 : ℚ), (0 : ℚ), (0 : ℚ))
          + (((((5 : ℤ), (6 : ℤ), (7 : ℤ)) : ℤ × ℤ × ℤ).1 : ℚ),
             (((((5 : ℤ), (6 : ℤ), (7 : ℤ)) : ℤ × ℤ × ℤ).2.1) : ℚ),
             (((((5 : ℤ), (6 : ℤ), (7 : ℤ)) : ℤ × ℤ × ℤ).2.2) : ℚ)) :=
  ⟨Nat.zero_lt_one,
   C4_deformation_applier [((1 : ℚ), (2 : ℚ), (3 : ℚ))]
     [((10 : ℚ), (0 : ℚ), (0 : ℚ))] ((5 : ℤ), (6 : ℤ), (7 : ℤ)) 0
     Nat.zero_lt_one rfl⟩

/-- Per-subject converged alphas: node index → class index → value. -/
abbrev AlphaMat : Type := ℕ → ℕ → ℚ

/-- The per-level accumulator `label_statistics_in_mesh_nodes` starts as
`np.zeros([number_of_nodes, number_of_classes, number_of_subjects])`
(source line 129); indexed node × class index × subject. -/
def initStatistics : ℕ → ℕ → ℕ → ℚ := fun _ _ _ => 0

/-- Source line 208:
`label_statistics_in_mesh_nodes[:, :, subject_number] = mesh.alphas.copy()`,
storing the converged alphas of subject i at subject index i. -/
def storeSubject (acc : ℕ → ℕ → ℕ → ℚ) (i : ℕ) (A : AlphaMat) :
    ℕ → ℕ → ℕ → ℚ :=
  fun n c s => if s = i then A n c else acc n c s

/-- The subject loop of one resolution level (source lines 131-208) as it
affects the accumulator: subjects 0..S-1 are processed in order, each stored
at its own subject index. -/
def runAggregation (A : ℕ → AlphaMat) (S : ℕ) : ℕ → ℕ → ℕ → ℚ :=
  (List.range S).foldl (fun acc i => storeSubject acc i (A i)) initStatistics

/-- Source lines 212 and 220: `np.mean(label_statistics_in_mesh_nodes,
axis=2)` — the per-node, per-class arithmetic mean over the subject axis,
used as the alphas of the level atlas with no renormalization applied. -/
def atlasMean (acc : ℕ → ℕ → ℕ → ℚ) (S : ℕ) (n c : ℕ) : ℚ :=
  (∑ s in Finset.range S, acc n c s) / (S : ℚ)

lemma runAggregation_lookup (A : ℕ → AlphaMat) (S i : ℕ) (hi : i < S)
    (n c : ℕ) : runAggregation A S n c i = A i n c := by
  induction S with
  | zero => omega
  | succ S ih =>
      unfold runAggregation at *
      rw [List.range_succ, List.foldl_append, List.foldl_cons, List.foldl_nil]
      by_cases h : i = S
      · subst h
        simp [storeSubject]
      · have hi' : i < S := by omega
        simp only [storeSubject, if_neg h]
        exact ih hi'

/-- C5: after the subject loop of a level the accumulator holds subject i
converged alphas at subject index i for every node and class, and the level
atlas value is the per-node, per-class arithmetic mean over the subject
axis — exactly the subject sum divided by the number of subjects, with no
renormalization. -/
theorem C5_aggregator_mean (A : ℕ → AlphaMat) (S i n c : ℕ) (hi : i < S) :
    runAggregation A S n c i = A i n c ∧
    atlasMean (runAggregation A S) S n c
      = (∑ j in Finset.range S, A j n c) / (S : ℚ) := by
  refine ⟨runAggregation_lookup A S i hi n c, ?_⟩
  unfold atlasMean
  congr 1
  exact Finset.sum_congr rfl
    (fun j hj => runAggregation_lookup A S j (Finset.mem_range.mp hj) n c)

/-- A concrete family of per-subject alphas used by the C5 witness. -/
def wAlphas : ℕ → AlphaMat := fun i _ _ => (i : ℚ)

/-- Witness for C5 with two subjects, read back at subject index 1. -/
theorem C5_aggregator_mean_witness :
    (1 : ℕ) < 2 ∧
    runAggregation wAlphas 2 0 0 1 = wAlphas 1 0 0 ∧
    atlasMean (runAggregation wAlphas 2) 2 0 0
      = (∑ j in Finset.range 2, wAlphas j 0 0) / ((2 : ℕ) : ℚ) :=
  ⟨by omega, C5_aggregator_mean wAlphas 2 1 0 0 (by omega)⟩

/-- C6: if every subject alpha vector sums to 1 at a node then the
aggregated mean at that node also sums to 1 over the classes (exactly, in
the ℚ model of the arithmetic, hence within floating tolerance), by
linearity of the mean. -/
theorem C6_mean_preserves_unit_sum (A : ℕ → AlphaMat) (S C n : ℕ)
    (hS : 0 < S)
    (h : ∀ i, i < S → (∑ c in Finset.range C, A i n c) = 1) :
    (∑ c in Finset.range C, atlasMean (runAggregation A S) S n c) = 1 := by
  unfold atlasMean
  rw [← Finset.sum_div]
  have hsum : (∑ c in Finset.range C, ∑ s in Finset.range S,
      runAggregation A S n c s) = (S : ℚ) := by
    calc (∑ c in Finset.range C, ∑ s in Finset.range S,
            runAggregation A S n c s)
        = ∑ c in Finset.range C, ∑ s in Finset.range S, A s n c :=
          Finset.sum_congr rfl (fun c _ => Finset.sum_congr rfl
            (fun s hs => runAggregation_lookup A S s (Finset.mem_range.mp hs) n c))
      _ = ∑ s in Finset.range S, ∑ c in Finset.range C, A s n c :=
          Finset.sum_comm
      _ = ∑ s in Finset.range S, 1 :=
          Finset.sum_congr rfl (fun s hs => h s (Finset.mem_range.mp hs))
      _ = (S : ℚ) := by simp
  rw [hsum]
  exact div_self (Nat.cast_ne_zero.mpr (Nat.pos_iff_ne_zero.mp hS))

/-- A uniform two-way alpha family used by the C6 witness. -/
def wUnif : ℕ → AlphaMat := fun _ _ _ => (1 / 2 : ℚ)

/-- Witness for C6 with two subjects and two alpha channels of 1/2 each. -/
theorem C6_mean_preserves_unit_sum_witness :
    (0 : ℕ) < 2 ∧
    (∑ c in Finset.range 2, atlasMean (runAggregation wUnif 2) 2 0 c) = 1 :=
  ⟨by omega,
   C6_mean_preserves_unit_sum wUnif 2 2 0 (by omega)
     (fun i _ => by norm_num [wUnif, Finset.sum_range_succ])⟩

/-- The default of the --EM-iterations command line option
(source line 36: `default=10`). -/
def EM_iterations_default : ℕ := 10

/-- Modelled from the spec: one EM iteration of `mesh.fit_alphas` (the gems
C++ extension, not under src/): the E-step evaluates the rasterized
prediction for the current alphas and the M-step re-estimates the alphas
from the target volume under those responsibilities; together they are one
state update. -/
def emIteration {α β : Type} (estep : α → β) (mstep : β → α) : α → α :=
  fun a => mstep (estep a)

/-- Modelled from the spec: the iteration history of
`mesh.fit_alphas(segmentation_map, args.EM_iterations)` (source line 192):
the E/M update is applied exactly the requested number of times — the list
holds the state after each iteration, and no convergence test can cut it
short. -/
def fit_alphasTrace {α β : Type} (estep : α → β) (mstep : β → α) :
    ℕ → α → List α
  | 0, _ => []
  | k + 1, a =>
      emIteration estep mstep a
        :: fit_alphasTrace estep mstep k (emIteration estep mstep a)

/-- Modelled from the spec: the result of `mesh.fit_alphas` after the fixed
iteration budget. -/
def fit_alphas {α β : Type} (estep : α → β) (mstep : β → α) (iters : ℕ)
    (a : α) : α :=
  (emIteration estep mstep)^[iters] a

lemma fit_alphasTrace_length {α β : Type} (estep : α → β) (mstep : β → α)
    (iters : ℕ) (a : α) :
    (fit_alphasTrace estep mstep iters a).length = iters := by
  induction iters generalizing a with
  | zero => rfl
  | succ k ih =>
      unfold fit_alphasTrace
      rw [List.length_cons, ih]

lemma fit_alphas_eq_getLastD {α β : Type} (estep : α → β) (mstep : β → α)
    (iters : ℕ) (a : α) :
    fit_alphas estep mstep iters a
      = (fit_alphasTrace estep mstep iters a).getLastD a := by
  induction iters generalizing a with
  | zero => rfl
  | succ k ih =>
      unfold fit_alphasTrace
      rw [List.getLastD_cons, ← ih]
      unfold fit_alphas
      exact Function.iterate_succ_apply (emIteration estep mstep) k a

/-- C7: the EM Fitter performs exactly the requested number of E-step/M-step
iterations — for every E-step, M-step, starting state and budget the trace
has length equal to the budget (so the run is bounded deterministically and
no convergence check can shorten it), the returned alphas are the state after
the last iteration, and the command line default for the budget is 10. -/
theorem C7_em_fixed_iterations {α β : Type} (estep : α → β) (mstep : β → α)
    (iters : ℕ) (a : α) :
    (fit_alphasTrace estep mstep iters a).length = iters ∧
    fit_alphas estep mstep iters a
        = (fit_alphasTrace estep mstep iters a).getLastD a ∧
    EM_iterations_default = 10 :=
  ⟨fit_alphasTrace_length estep mstep iters a,
   fit_alphas_eq_getLastD estep mstep iters a, rfl⟩

/-- A tetrahedral element of the fixed connectivity: four node indices. -/
structure Tetra where
  n0 : ℕ
  n1 : ℕ
  n2 : ℕ
  n3 : ℕ

/-- Mesh geometry: node positions plus the immutable element connectivity. -/
structure MeshGeom where
  points : ℕ → Vec3
  tetras : List Tetra

/-- Componentwise difference of two 3-D points. -/
def vsub (a b : Vec3) : Vec3 := (a.1 - b.1, a.2.1 - b.2.1, a.2.2 - b.2.2)

/-- The 3 × 3 determinant of three column vectors. -/
def det3 (u v w : Vec3) : ℚ :=
  u.1 * (v.2.1 * w.2.2 - v.2.2 * w.2.1)
    - u.2.1 * (v.1 * w.2.2 - v.2.2 * w.1)
    + u.2.2 * (v.1 * w.2.1 - v.2.1 * w.1)

/-- Modelled from the spec: barycentric coordinates of the point p with
respect to the tetrahedron (a, b, c, d), by Cramer solves against the edge
matrix; none when the element is degenerate (zero volume), in which case the
element is excluded from rasterization. -/
def baryWeights (p a b c d : Vec3) : Option (ℚ × ℚ × ℚ × ℚ) :=
  let det := det3 (vsub b a) (vsub c a) (vsub d a)
  if det = 0 then none
  else
    let l1 := det3 (vsub p a) (vsub c a) (vsub d a) / det
    let l2 := det3 (vsub b a) (vsub p a) (vsub d a) / det
    let l3 := det3 (vsub b a) (vsub c a) (vsub p a) / det
    some (1 - l1 - l2 - l3, l1, l2, l3)

/-- Modelled from the spec: element ownership — an element owns a voxel
center when all four barycentric weights are non-negative; the rule depends
only on the geometry, never on the alpha values. -/
def tetOwns (g : MeshGeom) (t : Tetra) (p : Vec3) : Bool :=
  match baryWeights p (g.points t.n0) (g.points t.n1) (g.points t.n2)
      (g.points t.n3) with
  | none => false
  | some (w0, w1, w2, w3) =>
      decide (0 ≤ w0) && decide (0 ≤ w1) && decide (0 ≤ w2) && decide (0 ≤ w3)

/-- Modelled from the spec: `mesh.rasterize` at one voxel center — the first
element of the fixed connectivity order that owns the point (a deterministic,
value-independent ownership rule) interpolates the node alphas of its four
nodes with the barycentric weights, scaled to full-scale units; a point
owned by no element gets the zero vector. -/
def rasterizeVoxel (g : MeshGeom) (alphas : AlphaMat) (p : Vec3) (k : ℕ) : ℚ :=
  match g.tetras.find? (fun t => tetOwns g t p) with
  | none => 0
  | some t =>
      match baryWeights p (g.points t.n0) (g.points t.n1) (g.points t.n2)
          (g.points t.n3) with
      | none => 0
      | some (w0, w1, w2, w3) =>
          (full_scale : ℚ) * (w0 * alphas t.n0 k + w1 * alphas t.n1 k
            + w2 * alphas t.n2 k + w3 * alphas t.n3 k)

/-- Modelled from the spec: `mesh.rasterize(segmentation_image.shape)`
(source lines 196, 202, 213, 221): the per-voxel class-probability volume
over the voxel grid of the given shape, zero outside the grid. -/
def rasterize (g : MeshGeom) (alphas : AlphaMat) (shape : ℕ × ℕ × ℕ)
    (v : Vox) (k : ℕ) : ℚ :=
  if v.1 < shape.1 ∧ v.2.1 < shape.2.1 ∧ v.2.2 < shape.2.2 then
    rasterizeVoxel g alphas ((v.1 : ℚ), (v.2.1 : ℚ), (v.2.2 : ℚ)) k
  else 0

/-- The world threaded through successive rasterizer calls: the only thing a
call changes is how often the rasterizer has been invoked; there is no other
state for it to read or write. -/
structure RastWorld where
  callCount : ℕ

/-- One call of the Rasterizer against the explicit world. -/
def rasterizeCall (w : RastWorld) (g : MeshGeom) (alphas : AlphaMat)
    (shape : ℕ × ℕ × ℕ) : (Vox → ℕ → ℚ) × RastWorld :=
  (fun v k => rasterize g alphas shape v k, ⟨w.callCount + 1⟩)

/-- C9: calling the Rasterizer twice with unchanged inputs yields identical
output — the second call, made in the world state left behind by the first,
returns the very same volume, and the output is the same from any two world
states whatsoever (the function has no hidden state and is a pure function
of node positions, node alphas and target shape). -/
theorem C9_rasterizer_idempotent (w w' : RastWorld) (g : MeshGeom)
    (alphas : AlphaMat) (shape : ℕ × ℕ × ℕ) :
    (rasterizeCall (rasterizeCall w g alphas shape).2 g alphas shape).1
        = (rasterizeCall w g alphas shape).1 ∧
    (rasterizeCall w g alphas shape).1 = (rasterizeCall w' g alphas shape).1 :=
  ⟨rfl, rfl⟩

/-- The command line arguments relevant to the labels requirement
(source lines 33-41): --labels and --labels_file both default to None and
--multi-structure is an independent flag; a present labels file is modelled
by the list of integers parsed from it. -/
structure Args where
  multi_structure : Bool
  labels : Option (List ℤ)
  labels_file : Option (List ℤ)

/-- Source lines 85-93: `labels = args.labels` unless --labels_file was
given, in which case the integers of the file are used. -/
def resolveLabels (args : Args) : Option (List ℤ) :=
  match args.labels_file with
  | none => args.labels
  | some parsed => some parsed

/-- The observable steps of `main`, in program order. -/
inductive Event where
  | wroteSubjectsFile : Event
  | wroteLabelsFile : Event
  | processedSubject (subject : String) : Event
  | raisedTypeError : Event
deriving DecidableEq

/-- The event order of `main` (source lines 49-233): subjects.txt is written
first (lines 80-83); then labels.txt is written by iterating over `labels`
(lines 95-98) — when `labels` is None the `for label in labels` loop raises
TypeError and the program dies there; only afterwards does the level loop
(line 113) run the subject loop (line 131) for every mesh collection. -/
def mainEvents (args : Args) (meshCollections subjects : List String) :
    List Event :=
  Event.wroteSubjectsFile ::
    match resolveLabels args with
    | none => [Event.raisedTypeError]
    | some _ =>
        Event.wroteLabelsFile ::
          (meshCollections.map
            (fun _ => subjects.map Event.processedSubject)).join

/-- C10: when neither --labels nor --labels_file is supplied, `main` raises
the TypeError while writing the labels output file (iterating over None),
before the labels file is produced and before any subject of any level is
processed — for either value of --multi-structure, so in binary mode too:
labels input is unconditionally required at the public interface. -/
theorem C10_labels_required (args : Args) (meshCollections subjects : List String)
    (h1 : args.labels = none) (h2 : args.labels_file = none) :
    mainEvents args meshCollections subjects
        = [Event.wroteSubjectsFile, Event.raisedTypeError] ∧
    (∀ s : String,
      Event.processedSubject s ∉ mainEvents args meshCollections subjects) ∧
    Event.wroteLabelsFile ∉ mainEvents args meshCollections subjects := by
  have hres : resolveLabels args = none := by
    unfold resolveLabels
    rw [h2, h1]
  unfold mainEvents
  rw [hres]
  refine ⟨rfl, fun s => ?_, ?_⟩ <;> simp

/-- Concrete argument vector with no labels input, binary mode. -/
def noLabelsArgs : Args :=
  { multi_structure := false, labels := none, labels_file := none }

/-- Witness for C10: with no labels input, one mesh collection and two
subjects, the run dies right after writing subjects.txt. -/
theorem C10_labels_required_witness :
    noLabelsArgs.labels = none ∧
    mainEvents noLabelsArgs ["mesh1"] ["subjA", "subjB"]
        = [Event.wroteSubjectsFile, Event.raisedTypeError] :=
  ⟨rfl, (C10_labels_required noLabelsArgs ["mesh1"] ["subjA", "subjB"] rfl rfl).1⟩
